import Mathlib

/-!
Verification of the `dirTree` utility (main.go): a program that walks a
directory tree into an in-memory list of nodes (`readDir`) and renders it
with `├───`/`└───` connectors (`printDir`).

The filesystem is shallowly embedded as the tree of observations the
traversal can make: for every directory, whether `os.Open` fails, the
entries `Readdir` returns (per Go's contract, on failure `Readdir` returns
the entries read so far together with a non-nil error), the `Readdir`
error, and the `Close` error.  Paths are modelled as lists of name
components; `filepath.Join(path, name)` appends one component (entry names
contain no separator).  Machine integers (`int64` sizes) are modelled as
`Int`.  Output is a pure `String` (the `io.Writer` never fails in the
model; write errors are outside the verified claims).
-/

/-- Errors observable from `dirTree`: an error string coming from the
filesystem (Go `error` values are compared by provenance here), or the
distinguished `errors.New("no nodes for you")` value created in `dirTree`. -/
inductive GoErr where
  | fsErr (msg : String)
  | noNodes
deriving DecidableEq

/-- Resource events emitted by the scan of one directory: `os.Open`
succeeded, `os.Open` failed, or `file.Close()` was invoked (the deferred
close).  They instrument the model so that handle lifetime is provable. -/
inductive FsEv where
  | openedOk (path : List String)
  | openFailed (path : List String)
  | closed (path : List String)
deriving DecidableEq

/-- The node model of main.go: `DirInfo{name, children}` and
`FileInfo{name, size}` (both implement the `Node` interface). -/
inductive Node where
  | dirInfo (name : String) (children : List Node)
  | fileInfo (name : String) (size : Int)

/-- A filesystem object as observed by the traversal.  A directory carries:
the error `os.Open` would return (`none` = open succeeds), the entries
`Readdir(0)` returns (on a read error these are the partially read
entries, per the documented `Readdir` contract), the `Readdir` error, and
the `Close` error. -/
inductive FSObj where
  | file (size : Int)
  | dir (openErr : Option String) (entries : List (String × FSObj))
        (readErr : Option String) (closeErr : Option String)

/-- Result of `readDir`: a Go runtime panic, or a normal return carrying
the `*[]Node` result (`none` models a nil pointer) and the `error`. -/
inductive ROut where
  | panicked
  | ret (res : Option (List Node)) (err : Option String)

/-- Result of `dirTree`: panic, returned error, or the rendered output. -/
inductive TreeOut where
  | panicked
  | errored (e : GoErr)
  | output (s : String)

/-- `bytes.Buffer.WriteString`: appends and, per its documentation, always
returns a nil error. -/
def writeString (buf s : String) : String × Option String :=
  (buf ++ s, none)

/-- The loop body of `concatStrings` (main.go lines 32-42): fold the
strings into a buffer, returning `("", err)` as soon as a write errs. -/
def concatStringsAux (buf : String) : List String → String × Option String
  | [] => (buf, none)
  | s :: rest =>
    match writeString buf s with
    | (buf2, none) => concatStringsAux buf2 rest
    | (_, some e) => ("", some e)

/-- `concatStrings` (main.go lines 32-42). -/
def concatStrings (strings : List String) : String × Option String :=
  concatStringsAux "" strings

/-- Decimal digits of `n`, least significant first; `[]` for `0`. -/
def natDigitsRev (n : Nat) : List Nat :=
  if n = 0 then [] else n % 10 :: natDigitsRev (n / 10)
decreasing_by exact Nat.div_lt_self (Nat.pos_of_ne_zero (by assumption)) (by decide)

/-- The character for one decimal digit. -/
def digitChar (d : Nat) : Char := Char.ofNat (48 + d)

/-- Modelled from the Go standard library contract of
`strconv.FormatInt(n, 10)` restricted to naturals: the decimal string. -/
def formatNat (n : Nat) : String :=
  if n = 0 then "0" else String.mk ((natDigitsRev n).reverse.map digitChar)

/-- Modelled from the Go standard library contract of
`strconv.FormatInt(n, 10)`: decimal, with a leading minus for negatives. -/
def formatInt : Int → String
  | Int.ofNat n => formatNat n
  | Int.negSucc m => "-" ++ formatNat (m + 1)

/-- `FileInfo.String` (main.go lines 46-59): `"<name> (empty)"` for size 0,
else `"<name> (<size>b)"`; returns `""` if `concatStrings` errs. -/
def fileInfoString (name : String) (size : Int) : String :=
  if size = 0 then
    match concatStrings [name, " (empty)"] with
    | (result, none) => result
    | (_, some _) => ""
  else
    match concatStrings [name, " (", formatInt size, "b)"] with
    | (result, none) => result
    | (_, some _) => ""

/-- The `fmt.Stringer` dispatch of the `Node` interface: `DirInfo.String`
returns the bare name (main.go lines 62-64), `FileInfo.String` the
formatted label. -/
def Node.string : Node → String
  | .dirInfo name _ => name
  | .fileInfo name size => fileInfoString name size

/-- The comparator of `sort.Slice` (main.go lines 80-82) as a non-strict
relation on entries: compare names only.  Go compares strings bytewise;
UTF-8 byte order agrees with the codepoint order used by Lean strings. -/
def entryLe (a b : String × FSObj) : Prop := a.1 ≤ b.1

instance : DecidableRel entryLe := fun a b => inferInstanceAs (Decidable (a.1 ≤ b.1))

instance : IsTotal (String × FSObj) entryLe :=
  ⟨fun a b => le_total a.1 b.1⟩

instance : IsTrans (String × FSObj) entryLe :=
  ⟨fun _ _ _ h1 h2 => le_trans h1 h2⟩

/-- The `sort.Slice(files, ...)` call (main.go lines 80-82): sort the
listed entries by name ascending.  `sort.Slice` guarantees exactly
sortedness w.r.t. the comparator (it is not stable), which any sorting
algorithm models; insertion sort is used. -/
def sortEntries (entries : List (String × FSObj)) : List (String × FSObj) :=
  entries.insertionSort entryLe

/-- The tail of one directory scan (main.go lines 72-78 and 100): run the
deferred `Close` and combine errors — `cErr := file.Close(); if err == nil
then err = cErr` — around the loop result `lr`.  A `none` loop result is a
nil-pointer dereference panic (the deferred close still runs before the
panic unwinds). -/
def combineScan (path : List String) (readErr closeErr : Option String)
    (lr : List FsEv × Option (List Node)) : List FsEv × ROut :=
  (FsEv.openedOk path :: lr.1 ++ [FsEv.closed path],
   match lr.2 with
   | none => ROut.panicked
   | some ns =>
     ROut.ret (some ns) (match readErr with | some e => some e | none => closeErr))

/-- Prepend the events of a subdirectory scan to a later loop state. -/
def appendEvs (evs : List FsEv) (p : List FsEv × Option (List Node)) :
    List FsEv × Option (List Node) :=
  (evs ++ p.1, p.2)

/-- A permutation of a list preserves its `sizeOf` (used for termination:
sorting the listed entries keeps them structurally no larger). -/
theorem perm_sizeOf {α : Type} [SizeOf α] {l1 l2 : List α}
    (h : List.Perm l1 l2) : sizeOf l1 = sizeOf l2 := by
  induction h with
  | nil => rfl
  | cons x _ ih => simp only [List.cons.sizeOf_spec]; omega
  | swap x y l => simp only [List.cons.sizeOf_spec]; omega
  | trans _ _ ih1 ih2 => omega

mutual

/-- `readDir` (main.go lines 67-101), instrumented with resource events.
`path` only names the scanned directory inside events.  The `.file` arm is
unreachable: the loop recurses only into entries reported as directories
(and `dirTree` is only ever invoked on a directory root). -/
def readDir (path : List String) (d : FSObj) (nodes : List Node)
    (withFiles : Bool) : List FsEv × ROut :=
  match d with
  | .file _ => ([], ROut.panicked)
  | .dir (some e) _ _ _ => ([FsEv.openFailed path], ROut.ret none (some e))
  | .dir none entries readErr closeErr =>
    combineScan path readErr closeErr
      (readDirLoop path (sortEntries entries) nodes withFiles)
termination_by sizeOf d
decreasing_by
  simp_arith [sortEntries, perm_sizeOf (List.perm_insertionSort entryLe entries)]

/-- The `for _, info := range files` loop of `readDir` (main.go lines
84-98).  Files are skipped unless `withFiles`; for a subdirectory the
recursive result's error is discarded (`children, _ := readDir(...)`) and
`*children` is dereferenced — if that pointer is nil (the recursive open
failed) the dereference panics, modelled by a `none` loop result. -/
def readDirLoop (path : List String) (entries : List (String × FSObj))
    (nodes : List Node) (withFiles : Bool) : List FsEv × Option (List Node) :=
  match entries with
  | [] => ([], some nodes)
  | (name, FSObj.file size) :: rest =>
    if withFiles then
      readDirLoop path rest (nodes ++ [Node.fileInfo name size]) withFiles
    else
      readDirLoop path rest nodes withFiles
  | (name, FSObj.dir o es r c) :: rest =>
    match readDir (path ++ [name]) (FSObj.dir o es r c) [] withFiles with
    | (evs, ROut.panicked) => (evs, none)
    | (evs, ROut.ret none _) => (evs, none)
    | (evs, ROut.ret (some children) _) =>
      appendEvs evs
        (readDirLoop path rest (nodes ++ [Node.dirInfo name children]) withFiles)
termination_by sizeOf entries
decreasing_by all_goals simp_arith

end

mutual

/-- `printDir` (main.go lines 104-144): print the concatenated prefix,
then `└───`/`├───` plus the node's `String()` and a newline; recurse into
a directory's children with the prefix extended by `"\t"` (last sibling)
or `"│\t"` (more siblings follow), then continue with the remaining
siblings under the unmodified prefix. -/
def printDir (nodes : List Node) (prefixes : List String) : String :=
  match nodes with
  | [] => ""
  | node :: rest =>
    match rest with
    | [] =>
      (concatStrings prefixes).1 ++ "└───" ++ node.string ++ "\n" ++
        printChildren node (prefixes ++ ["\t"])
    | _ :: _ =>
      (concatStrings prefixes).1 ++ "├───" ++ node.string ++ "\n" ++
        printChildren node (prefixes ++ ["│\t"]) ++
        printDir rest prefixes

/-- The `if directory, ok := node.(DirInfo)` type switch of `printDir`:
only a directory contributes descendant output. -/
def printChildren (node : Node) (prefixes : List String) : String :=
  match node with
  | .dirInfo _ children => printDir children prefixes
  | .fileInfo _ _ => ""

end

/-- Entry point of rendering as called from `dirTree`: empty prefix. -/
def printDirAll (nodes : List Node) : String := printDir nodes []

/-- `dirTree` (main.go lines 146-156): build with a fresh `&[]Node{}`,
propagate a non-nil error, reject a nil node collection with
`errors.New("no nodes for you")`, otherwise render from an empty prefix
list. -/
def dirTree (root : FSObj) (isPrintFiles : Bool) : TreeOut :=
  match (readDir [] root [] isPrintFiles).2 with
  | ROut.panicked => TreeOut.panicked
  | ROut.ret _ (some e) => TreeOut.errored (GoErr.fsErr e)
  | ROut.ret none none => TreeOut.errored GoErr.noNodes
  | ROut.ret (some nodes) none => TreeOut.output (printDirAll nodes)


/-- The text `printDir` emits for the first node of a sibling sequence:
prefix, connector (`└───` when it is the last sibling), the node's display
string, a newline, and — for a directory — the subtree rendered under the
prefix extended by one fragment. -/
def renderEntry (prefixes : List String) (last : Bool) (n : Node) : String :=
  (concatStrings prefixes).1 ++ (if last then "└───" else "├───") ++
    n.string ++ "\n" ++
    printChildren n (prefixes ++ [if last then "\t" else "│\t"])

/-- Mark each node of a sibling sequence with whether it is the last. -/
def markLast : List Node → List (Node × Bool)
  | [] => []
  | [n] => [(n, true)]
  | n :: rest => (n, false) :: markLast rest

/-- The name of a node (`DirInfo.name` / `FileInfo.name`). -/
def Node.name : Node → String
  | .dirInfo n _ => n
  | .fileInfo n _ => n

/-- Name order on built nodes. -/
def nameLe (a b : Node) : Prop := a.name ≤ b.name

/-- Every directory node in this tree lists its children sorted by name
ascending. -/
def allSorted : Node → Prop
  | .fileInfo _ _ => True
  | .dirInfo _ children =>
    children.Pairwise nameLe ∧ ∀ c ∈ children, allSorted c
termination_by n => sizeOf n
decreasing_by
  have h1 := List.sizeOf_lt_of_mem (by assumption : c ∈ children)
  simp_arith
  omega

/-- Every directory listing in this filesystem has pairwise distinct entry
names (true of any real filesystem: names are unique within a directory). -/
def nodupNames : FSObj → Prop
  | .file _ => True
  | .dir _ entries _ _ =>
    (entries.map Prod.fst).Nodup ∧ ∀ e ∈ entries, nodupNames e.2
termination_by d => sizeOf d
decreasing_by
  have h1 := List.sizeOf_lt_of_mem (by assumption : e ∈ entries)
  have h2 : sizeOf e.2 < sizeOf e := by cases e; simp_arith
  simp_arith
  omega

/-- Canonical form of a filesystem observation: recursively sort every
directory listing by name.  Two observations of the same unchanged
filesystem — whose listings differ only in the order `Readdir` returned
the entries — have the same canonical form. -/
def normObj : FSObj → FSObj
  | .file s => .file s
  | .dir o entries r c =>
    .dir o (sortEntries (entries.attach.map (fun e => (e.1.1, normObj e.1.2)))) r c
termination_by d => sizeOf d
decreasing_by
  have h1 := List.sizeOf_lt_of_mem e.2
  have h2 : sizeOf e.1.2 < sizeOf e.1 := by rcases e with ⟨⟨a, b⟩, h⟩; simp_arith
  simp_arith
  omega

/-- Observations of the same unchanged filesystem: equal after
normalizing away the order in which each listing was returned. -/
def objEquiv (d1 d2 : FSObj) : Prop := normObj d1 = normObj d2

/-- The buffer loop of `concatStrings` appends every string and never
errs (a `bytes.Buffer` write cannot fail). -/
theorem concatStringsAux_eq (buf : String) (l : List String) :
    concatStringsAux buf l = (l.foldl (· ++ ·) buf, none) := by
  induction l generalizing buf with
  | nil => rfl
  | cons s rest ih => simp [concatStringsAux, writeString, ih]

/-- `concatStrings` returns the join of its arguments and a nil error. -/
theorem concatStrings_eq (l : List String) :
    concatStrings l = (String.join l, none) := by
  simp [concatStrings, concatStringsAux_eq, String.join]

/-- Unfolding equation of `natDigitsRev`. -/
theorem natDigitsRev_eq (n : Nat) :
    natDigitsRev n = if n = 0 then [] else n % 10 :: natDigitsRev (n / 10) := by
  rw [natDigitsRev]

/-- Every digit produced is below 10. -/
theorem natDigitsRev_lt10 (n : Nat) : ∀ d ∈ natDigitsRev n, d < 10 := by
  induction n using Nat.strong_induction_on with
  | _ n ih =>
    rw [natDigitsRev_eq]
    by_cases h : n = 0
    · simp [h]
    · simp only [h, if_false, List.mem_cons]
      rintro d (rfl | hd)
      · exact Nat.mod_lt _ (by decide)
      · exact ih (n / 10) (Nat.div_lt_self (Nat.pos_of_ne_zero h) (by decide)) d hd

/-- The most significant digit of a positive number is nonzero. -/
theorem natDigitsRev_getLast (n : Nat) (h : n ≠ 0) :
    ∃ d, (natDigitsRev n).getLast? = some d ∧ d ≠ 0 ∧ d < 10 := by
  induction n using Nat.strong_induction_on with
  | _ n ih =>
    rw [natDigitsRev_eq]
    simp only [h, if_false]
    by_cases h10 : n / 10 = 0
    · refine ⟨n % 10, ?_, ?_, Nat.mod_lt _ (by decide)⟩
      · rw [natDigitsRev_eq, h10]
        simp
      · have : n < 10 := by omega
        omega
    · obtain ⟨d, hd, hd0, hd10⟩ :=
        ih (n / 10) (Nat.div_lt_self (Nat.pos_of_ne_zero h) (by decide)) h10
      refine ⟨d, ?_, hd0, hd10⟩
      have hne : natDigitsRev (n / 10) ≠ [] := by
        rw [natDigitsRev_eq]
        simp [h10]
      obtain ⟨a, t, ht⟩ := List.exists_cons_of_ne_nil hne
      rw [ht]
      rw [ht] at hd
      exact List.getLast?_cons_cons.trans hd

/-- Value of a least-significant-first digit list. -/
def digitsVal : List Nat → Nat
  | [] => 0
  | d :: ds => d + 10 * digitsVal ds

/-- `natDigitsRev` is a faithful base-10 expansion. -/
theorem digitsVal_natDigitsRev (n : Nat) : digitsVal (natDigitsRev n) = n := by
  induction n using Nat.strong_induction_on with
  | _ n ih =>
    rw [natDigitsRev_eq]
    by_cases h : n = 0
    · simp [h, digitsVal]
    · simp only [h, if_false, digitsVal]
      rw [ih (n / 10) (Nat.div_lt_self (Nat.pos_of_ne_zero h) (by decide))]
      omega

/-- Reading a digit character back. -/
theorem digitChar_toNat (d : Nat) (h : d < 10) : (digitChar d).toNat = 48 + d := by
  interval_cases d <;> decide

/-- Digit characters are decimal digits. -/
theorem digitChar_isDigit (d : Nat) (h : d < 10) : (digitChar d).isDigit = true := by
  interval_cases d <;> decide

/-- Digit characters of nonzero digits differ from `'0'`. -/
theorem digitChar_ne_zero (d : Nat) (h : d < 10) (h0 : d ≠ 0) : digitChar d ≠ '0' := by
  interval_cases d <;> simp_all <;> decide

/-- Decimal value of rendered characters (most significant first). -/
def digitsToNat (cs : List Char) : Nat :=
  cs.foldl (fun acc c => 10 * acc + (c.toNat - 48)) 0

/-- Folding most-significant-first over reversed digits recovers the
least-significant-first value. -/
theorem foldl_reverse_digitsVal (l : List Nat) :
    l.reverse.foldl (fun acc d => 10 * acc + d) 0 = digitsVal l := by
  induction l with
  | nil => rfl
  | cons d ds ih =>
    rw [List.reverse_cons, List.foldl_append, ih]
    simp [digitsVal]
    omega

/-- `formatNat` of a positive number: nonempty, no leading zero, all
characters decimal digits, and reading the digits back yields the number
— i.e. the plain decimal representation with no separators. -/
theorem formatNat_spec (n : Nat) (h : 0 < n) :
    (formatNat n).data ≠ [] ∧
    (formatNat n).data.head? ≠ some '0' ∧
    (∀ c ∈ (formatNat n).data, c.isDigit = true) ∧
    digitsToNat (formatNat n).data = n := by
  have hne : n ≠ 0 := Nat.pos_iff_ne_zero.mp h
  have hdata : (formatNat n).data = (natDigitsRev n).reverse.map digitChar := by
    simp [formatNat, hne]
  have hdnil : natDigitsRev n ≠ [] := by
    rw [natDigitsRev_eq]
    simp [hne]
  refine ⟨?_, ?_, ?_, ?_⟩
  · rw [hdata]
    simp [hdnil]
  · rw [hdata]
    obtain ⟨d, hd, hd0, hd10⟩ := natDigitsRev_getLast n hne
    rw [List.head?_map, List.head?_reverse, hd]
    intro hcontra
    exact digitChar_ne_zero d hd10 hd0 (by simpa using hcontra)
  · rw [hdata]
    intro c hc
    obtain ⟨d, hd, rfl⟩ := List.mem_map.mp hc
    exact digitChar_isDigit d (natDigitsRev_lt10 n d (List.mem_reverse.mp hd))
  · rw [hdata, digitsToNat, List.foldl_map]
    have hcong : (natDigitsRev n).reverse.foldl
        (fun acc d => 10 * acc + ((digitChar d).toNat - 48)) 0 =
        (natDigitsRev n).reverse.foldl (fun acc d => 10 * acc + d) 0 := by
      apply List.foldl_ext
      intro acc d hd
      rw [digitChar_toNat d (natDigitsRev_lt10 n d (List.mem_reverse.mp hd))]
      omega
    rw [hcong, foldl_reverse_digitsVal, digitsVal_natDigitsRev]

/-- `FileInfo.String` always takes the non-error branch and returns the
formatted label. -/
theorem fileInfoString_eq (name : String) (size : Int) :
    fileInfoString name size =
      if size = 0 then name ++ " (empty)"
      else name ++ " (" ++ formatInt size ++ "b)" := by
  by_cases h : size = 0
  · rw [fileInfoString, if_pos h, concatStrings_eq, if_pos h]
    simp [String.join]
  · rw [fileInfoString, if_neg h, concatStrings_eq, if_neg h]
    simp [String.join]

/-- C10: the error branch of `FileInfo.String` that would return `""` is
unreachable: `concatStrings` (an in-memory buffer concatenation) always
returns a nil error, so `String` always returns the formatted label built
from the file's name and size. -/
theorem c10_fileInfoString_total :
    (∀ strings : List String, (concatStrings strings).2 = none) ∧
    (∀ (name : String) (size : Int),
      fileInfoString name size =
        if size = 0 then name ++ " (empty)"
        else name ++ " (" ++ formatInt size ++ "b)") :=
  ⟨fun strings => by rw [concatStrings_eq], fileInfoString_eq⟩

/-- C3: a File of size exactly 0 renders as `"<name> (empty)"`, never as
`"<name> (0b)"`; a File of size N > 0 renders as `"<name> (Nb)"` where the
size substring is the decimal representation of N: digit characters only
(no separators), no leading zero, reading back to N. -/
theorem c3_file_display (name : String) (size : Int) :
    (size = 0 → fileInfoString name size = name ++ " (empty)" ∧
      fileInfoString name size ≠ name ++ " (0b)") ∧
    (∀ n : Nat, size = (n : Int) → 0 < n →
      fileInfoString name size = name ++ " (" ++ formatNat n ++ "b)" ∧
      (formatNat n).data ≠ [] ∧
      (formatNat n).data.head? ≠ some '0' ∧
      (∀ c ∈ (formatNat n).data, c.isDigit = true) ∧
      digitsToNat (formatNat n).data = n) := by
  constructor
  · intro h
    rw [fileInfoString_eq, if_pos h]
    refine ⟨rfl, ?_⟩
    intro heq
    have hlen := congrArg String.length heq
    rw [String.length_append, String.length_append] at hlen
    have h8 : (" (empty)" : String).length = 8 := by decide
    have h5 : (" (0b)" : String).length = 5 := by decide
    omega
  · intro n hn hpos
    have hne : size ≠ 0 := by
      rw [hn]
      exact_mod_cast Nat.pos_iff_ne_zero.mp hpos
    have hfmt : formatInt size = formatNat n := by rw [hn]; rfl
    rw [fileInfoString_eq, if_neg hne, hfmt]
    obtain ⟨h1, h2, h3, h4⟩ := formatNat_spec n hpos
    exact ⟨rfl, h1, h2, h3, h4⟩

/-- Witness for C3 at `name = "a"`, sizes 0 and 120. -/
theorem c3_witness :
    fileInfoString "a" 0 = "a" ++ " (empty)" ∧
    fileInfoString "a" 0 ≠ "a" ++ " (0b)" ∧
    fileInfoString "a" 120 = "a" ++ " (" ++ formatNat 120 ++ "b)" ∧
    digitsToNat (formatNat 120).data = 120 :=
  ⟨((c3_file_display "a" 0).1 rfl).1,
   ((c3_file_display "a" 0).1 rfl).2,
   ((c3_file_display "a" 120).2 120 (by norm_num) (by norm_num)).1,
   ((c3_file_display "a" 120).2 120 (by norm_num) (by norm_num)).2.2.2.2⟩

/-- Hoisting an initial buffer out of a string fold. -/
theorem foldl_append_hoist (l : List String) (x y : String) :
    l.foldl (· ++ ·) (x ++ y) = x ++ l.foldl (· ++ ·) y := by
  induction l generalizing y with
  | nil => rfl
  | cons s rest ih => rw [List.foldl_cons, List.foldl_cons, String.append_assoc, ih]

/-- `String.join` distributes over cons. -/
theorem join_cons (a : String) (l : List String) :
    String.join (a :: l) = a ++ String.join l := by
  show (a :: l).foldl (· ++ ·) "" = a ++ l.foldl (· ++ ·) ""
  rw [List.foldl_cons, String.empty_append]
  have h := foldl_append_hoist l a ""
  rw [String.append_empty] at h
  exact h

/-- `printDir` on a non-empty sibling sequence: the head's full entry
(line plus subtree) followed by the rendering of the remaining siblings
under the same prefix. -/
theorem printDir_cons (n : Node) (rest : List Node) (p : List String) :
    printDir (n :: rest) p = renderEntry p rest.isEmpty n ++ printDir rest p := by
  cases rest with
  | nil => simp [printDir, renderEntry]
  | cons b bs => simp [printDir, renderEntry, String.append_assoc]

/-- C4: each node's line is the concatenated ancestor prefix, then
`└───` exactly when the node is last in its sibling sequence and `├───`
otherwise, then the node's display string and a newline (see
`renderEntry`); within a rendered sibling group exactly the last node is
marked with `└───`. -/
theorem c4_connector_per_sibling (ns : List Node) (p : List String) :
    printDir ns p =
      String.join ((markLast ns).map (fun x => renderEntry p x.2 x.1)) ∧
    (ns ≠ [] →
      (markLast ns).map Prod.snd =
        List.replicate (ns.length - 1) false ++ [true]) := by
  constructor
  · induction ns with
    | nil => simp [printDir, markLast, String.join]
    | cons n rest ih =>
      rw [printDir_cons]
      cases rest with
      | nil =>
        simp [markLast, printDir, join_cons, String.join]
      | cons b bs =>
        rw [show markLast (n :: b :: bs) = (n, false) :: markLast (b :: bs) from rfl]
        rw [List.map_cons, join_cons, ← ih]
        rfl
  · induction ns with
    | nil => simp
    | cons n rest ih =>
      intro _
      cases rest with
      | nil => simp [markLast]
      | cons b bs =>
        rw [show markLast (n :: b :: bs) = (n, false) :: markLast (b :: bs) from rfl]
        rw [List.map_cons, ih (by simp)]
        simp [List.replicate_succ]

/-- Witness for C4 at a singleton file under an empty prefix. -/
theorem c4_witness :
    printDir [Node.fileInfo "a" 0] [] =
      String.join ((markLast [Node.fileInfo "a" 0]).map
        (fun x => renderEntry [] x.2 x.1)) ∧
    (markLast [Node.fileInfo "a" 0]).map Prod.snd =
      List.replicate ([Node.fileInfo "a" 0].length - 1) false ++ [true] :=
  ⟨(c4_connector_per_sibling [Node.fileInfo "a" 0] []).1,
   (c4_connector_per_sibling [Node.fileInfo "a" 0] []).2 (by simp)⟩

/-- C5: descending into a directory extends the prefix by exactly one
fragment — `"\t"` when the directory is the last sibling, `"│\t"`
otherwise — while the remaining siblings are rendered under the unmodified
prefix; the directory's own line precedes all of its descendants' lines
and the whole subtree precedes the next sibling's output. -/
theorem c5_descend_prefix (name : String) (cs rest : List Node) (p : List String) :
    printDir (Node.dirInfo name cs :: rest) p =
      (concatStrings p).1 ++ (if rest.isEmpty then "└───" else "├───") ++
        name ++ "\n" ++
        printDir cs (p ++ [if rest.isEmpty then "\t" else "│\t"]) ++
        printDir rest p := by
  cases rest with
  | nil => simp [printDir, printChildren, Node.string]
  | cons b bs => simp [printDir, printChildren, Node.string, String.append_assoc]

/-- The accumulator of the build loop is threaded purely by appending:
running the loop from `nodes` equals running it from the fresh empty
slice and prepending `nodes` to a successful result (events agree). -/
theorem readDirLoop_nodes (path : List String) (entries : List (String × FSObj))
    (ns : List Node) (wf : Bool) :
    readDirLoop path entries ns wf =
      ((readDirLoop path entries [] wf).1,
       ((readDirLoop path entries [] wf).2).map (ns ++ ·)) := by
  induction entries generalizing ns with
  | nil => simp [readDirLoop]
  | cons e rest ih =>
    obtain ⟨name, obj⟩ := e
    cases obj with
    | file size =>
      cases wf with
      | false =>
        rw [show readDirLoop path ((name, FSObj.file size) :: rest) ns false =
              readDirLoop path rest ns false from by simp [readDirLoop]]
        rw [show readDirLoop path ((name, FSObj.file size) :: rest) [] false =
              readDirLoop path rest [] false from by simp [readDirLoop]]
        exact ih ns
      | true =>
        rw [show readDirLoop path ((name, FSObj.file size) :: rest) ns true =
              readDirLoop path rest (ns ++ [Node.fileInfo name size]) true from by
            simp [readDirLoop]]
        rw [show readDirLoop path ((name, FSObj.file size) :: rest) [] true =
              readDirLoop path rest ([] ++ [Node.fileInfo name size]) true from by
            simp [readDirLoop]]
        rw [ih (ns ++ [Node.fileInfo name size]), ih ([] ++ [Node.fileInfo name size])]
        simp [Option.map_map, Function.comp_def]
    | dir o es r c =>
      cases hr : readDir (path ++ [name]) (FSObj.dir o es r c) [] wf with
      | mk evs rout =>
        cases rout with
        | panicked =>
          simp [readDirLoop, hr]
        | ret ores oerr =>
          cases ores with
          | none => simp [readDirLoop, hr]
          | some children =>
            simp only [readDirLoop, hr, appendEvs]
            rw [ih (ns ++ [Node.dirInfo name children]),
              ih ([] ++ [Node.dirInfo name children])]
            simp [Option.map_map, Function.comp_def]

/-- C9: whenever `readDir` returns normally with a nil node-collection
pointer, its error is non-nil; hence the `nodes == nil` branch of
`dirTree` after a successful build is unreachable and the
`"no nodes for you"` error is never produced. -/
theorem c9_success_never_nil :
    (∀ (path : List String) (d : FSObj) (ns : List Node) (wf : Bool)
       (evs : List FsEv) (err : Option String),
      readDir path d ns wf = (evs, ROut.ret none err) → ∃ e, err = some e) ∧
    (∀ (d : FSObj) (wf : Bool), dirTree d wf ≠ TreeOut.errored GoErr.noNodes) := by
  have part1 : ∀ (path : List String) (d : FSObj) (ns : List Node) (wf : Bool)
      (evs : List FsEv) (err : Option String),
      readDir path d ns wf = (evs, ROut.ret none err) → ∃ e, err = some e := by
    intro path d ns wf evs err h
    cases d with
    | file size => simp [readDir] at h
    | dir o entries readErr closeErr =>
      cases o with
      | some e =>
        simp [readDir] at h
        exact ⟨e, h.2.symm⟩
      | none =>
        rw [readDir] at h
        cases hl : (readDirLoop path (sortEntries entries) ns wf).2 with
        | none => simp [combineScan, hl] at h
        | some ns2 => simp [combineScan, hl] at h
  refine ⟨part1, ?_⟩
  intro d wf hcontra
  rw [dirTree] at hcontra
  cases hr : (readDir [] d [] wf).2 with
  | panicked => rw [hr] at hcontra; exact TreeOut.noConfusion hcontra
  | ret res err =>
    cases err with
    | some e =>
      rw [hr] at hcontra
      simp at hcontra
    | none =>
      cases res with
      | some ns =>
        rw [hr] at hcontra
        exact TreeOut.noConfusion hcontra
      | none =>
        obtain ⟨e, he⟩ := part1 [] d [] wf (readDir [] d [] wf).1 none
          (by rw [← hr])
        exact Option.noConfusion he

/-- Witness for C9: a root whose open fails returns a nil collection
with a non-nil error, and no filesystem makes `dirTree` report
`"no nodes for you"`. -/
theorem c9_witness :
    (∃ e, (some "x" : Option String) = some e) ∧
    dirTree (FSObj.dir (some "x") [] none none) false ≠
      TreeOut.errored GoErr.noNodes :=
  ⟨c9_success_never_nil.1 [] (FSObj.dir (some "x") [] none none) [] false
      [FsEv.openFailed []] (some "x") (by rw [readDir]),
   c9_success_never_nil.2 (FSObj.dir (some "x") [] none none) false⟩

/-- C1 (failing input): a root with a single subdirectory `sub` whose
`os.Open` fails — the realistic permission-denied case — makes the whole
program panic: the recursive `readDir` returns a nil pointer, the error is
discarded by `children, _ := readDir(...)`, and `*children` dereferences
nil.  The subdirectory is not appended as an empty Directory node and no
siblings are processed.  By contrast (second conjunct) a subdirectory
whose open succeeds and whose `Readdir` fails with no partial entries IS
swallowed into an empty Directory node, which is the behavior the claim
describes. -/
theorem c1_subdir_open_failure_panics :
    dirTree (FSObj.dir none
      [("sub", FSObj.dir (some "permission denied") [] none none)]
      none none) false = TreeOut.panicked ∧
    dirTree (FSObj.dir none
      [("sub", FSObj.dir none [] (some "permission denied") none)]
      none none) false =
      TreeOut.output (printDir [Node.dirInfo "sub" []] []) := by
  constructor
  · rw [dirTree, readDir]
    rw [show sortEntries [("sub", FSObj.dir (some "permission denied") [] none none)] =
          [("sub", FSObj.dir (some "permission denied") [] none none)] from by
        simp [sortEntries, List.insertionSort]]
    rw [readDirLoop, readDir]
    simp [combineScan]
  · rw [dirTree, readDir]
    rw [show sortEntries [("sub", FSObj.dir none [] (some "permission denied") none)] =
          [("sub", FSObj.dir none [] (some "permission denied") none)] from by
        simp [sortEntries, List.insertionSort]]
    rw [readDirLoop, readDir]
    rw [show sortEntries [] = [] from by simp [sortEntries, List.insertionSort]]
    rw [readDirLoop]
    simp [combineScan, appendEvs, readDirLoop, printDirAll]

/-- C6 (counterexample): when the root's `Readdir` fails after partially
returning an entry that is itself an unopenable subdirectory (Go's
`Readdir` contract allows partial results with a non-nil error), the
program panics instead of propagating the root error to the caller. -/
theorem c6_counterexample :
    dirTree (FSObj.dir none
      [("sub", FSObj.dir (some "EACCES") [] none none)]
      (some "EIO") none) false = TreeOut.panicked ∧
    TreeOut.panicked ≠ TreeOut.errored (GoErr.fsErr "EIO") := by
  constructor
  · rw [dirTree, readDir]
    rw [show sortEntries [("sub", FSObj.dir (some "EACCES") [] none none)] =
          [("sub", FSObj.dir (some "EACCES") [] none none)] from by
        simp [sortEntries, List.insertionSort]]
    rw [readDirLoop, readDir]
    simp [combineScan]
  · exact fun h => TreeOut.noConfusion h

/-- C6 (amended): an error opening the root propagates unmodified and
aborts with no output; an error listing the root propagates unmodified
provided building the partially returned entries does not hit the
nil-dereference panic (in particular whenever the failed listing returned
no usable entries).  The deferred close error of the root is discarded in
both cases (first error wins). -/
theorem c6_root_error_propagates :
    (∀ (e : String) (entries : List (String × FSObj))
       (readErr closeErr : Option String) (wf : Bool),
      dirTree (FSObj.dir (some e) entries readErr closeErr) wf =
        TreeOut.errored (GoErr.fsErr e)) ∧
    (∀ (e : String) (entries : List (String × FSObj))
       (closeErr : Option String) (wf : Bool) (ns2 : List Node),
      (readDirLoop [] (sortEntries entries) [] wf).2 = some ns2 →
      dirTree (FSObj.dir none entries (some e) closeErr) wf =
        TreeOut.errored (GoErr.fsErr e)) := by
  constructor
  · intro e entries readErr closeErr wf
    rw [dirTree, readDir]
  · intro e entries closeErr wf ns2 hl
    rw [dirTree, readDir]
    simp [combineScan, hl]

/-- Witness for C6 (amended) at concrete roots. -/
theorem c6_witness :
    dirTree (FSObj.dir (some "boom") [] none none) false =
      TreeOut.errored (GoErr.fsErr "boom") ∧
    dirTree (FSObj.dir none [] (some "EIO") none) false =
      TreeOut.errored (GoErr.fsErr "EIO") :=
  ⟨c6_root_error_propagates.1 "boom" [] none none false,
   c6_root_error_propagates.2 "EIO" [] none false []
     (by rw [show sortEntries [] = [] from by simp [sortEntries, List.insertionSort]];
         rw [readDirLoop])⟩

/-- Balance of open/close events for the build loop, assuming it for the
recursive scans of the member entries. -/
theorem readDirLoop_balanced (p : List String) (entries : List (String × FSObj))
    (H : ∀ e ∈ entries, ∀ (path2 : List String) (ns2 : List Node) (wf2 : Bool),
      (readDir path2 e.2 ns2 wf2).1.count (FsEv.openedOk p) =
      (readDir path2 e.2 ns2 wf2).1.count (FsEv.closed p)) :
    ∀ (path : List String) (ns : List Node) (wf : Bool),
      (readDirLoop path entries ns wf).1.count (FsEv.openedOk p) =
      (readDirLoop path entries ns wf).1.count (FsEv.closed p) := by
  induction entries with
  | nil => intro path ns wf; simp [readDirLoop]
  | cons e rest ih =>
    intro path ns wf
    have hrest := ih (fun e2 he2 => H e2 (List.mem_cons_of_mem _ he2))
    obtain ⟨name, obj⟩ := e
    cases obj with
    | file size =>
      cases wf with
      | false =>
        rw [show readDirLoop path ((name, FSObj.file size) :: rest) ns false =
              readDirLoop path rest ns false from by simp [readDirLoop]]
        exact hrest path ns false
      | true =>
        rw [show readDirLoop path ((name, FSObj.file size) :: rest) ns true =
              readDirLoop path rest (ns ++ [Node.fileInfo name size]) true from by
            simp [readDirLoop]]
        exact hrest path _ true
    | dir o es r c =>
      have hchild := H (name, FSObj.dir o es r c) (List.mem_cons_self _ _) (path ++ [name]) [] wf
      cases hr : readDir (path ++ [name]) (FSObj.dir o es r c) [] wf with
      | mk evs rout =>
        rw [hr] at hchild
        cases rout with
        | panicked =>
          simp only [readDirLoop, hr]
          exact hchild
        | ret ores oerr =>
          cases ores with
          | none =>
            simp only [readDirLoop, hr]
            exact hchild
          | some children =>
            simp only [readDirLoop, hr, appendEvs, List.count_append]
            rw [hchild, hrest path _ wf]

/-- Sorting the listing does not add or drop entries. -/
theorem mem_sortEntries {e : String × FSObj} {entries : List (String × FSObj)}
    (h : e ∈ sortEntries entries) : e ∈ entries := by
  rw [sortEntries, List.mem_insertionSort] at h
  exact h

/-- A listed entry's object is structurally smaller than the directory. -/
theorem sizeOf_entry_lt {e : String × FSObj} {entries : List (String × FSObj)}
    (h : e ∈ entries) (o r c : Option String) :
    sizeOf e.2 < sizeOf (FSObj.dir o entries r c) := by
  have h1 := List.sizeOf_lt_of_mem h
  have h2 : sizeOf e.2 < sizeOf e := by cases e; simp_arith
  simp_arith
  omega

/-- Every handle the scan opens is closed before the scan returns, on
every exit path (error returns and the panic unwind included). -/
theorem readDir_balanced (p : List String) :
    ∀ (N : Nat) (d : FSObj), sizeOf d ≤ N →
    ∀ (path : List String) (ns : List Node) (wf : Bool),
      (readDir path d ns wf).1.count (FsEv.openedOk p) =
      (readDir path d ns wf).1.count (FsEv.closed p) := by
  intro N
  induction N using Nat.strong_induction_on with
  | _ N ih =>
    intro d hd path ns wf
    cases d with
    | file s => simp [readDir]
    | dir o entries r c =>
      cases o with
      | some e => simp [readDir]
      | none =>
        have H : ∀ e2 ∈ sortEntries entries,
            ∀ (path2 : List String) (ns2 : List Node) (wf2 : Bool),
            (readDir path2 e2.2 ns2 wf2).1.count (FsEv.openedOk p) =
            (readDir path2 e2.2 ns2 wf2).1.count (FsEv.closed p) := by
          intro e2 he2 path2 ns2 wf2
          have hlt := sizeOf_entry_lt (mem_sortEntries he2) none r c
          exact ih (sizeOf e2.2) (lt_of_lt_of_le hlt hd) e2.2 le_rfl path2 ns2 wf2
        have hloop := readDirLoop_balanced p (sortEntries entries) H path ns wf
        rw [readDir]
        by_cases hp : p = path
        · subst hp
          simp [combineScan, List.count_cons, List.count_append, hloop]
        · simp [combineScan, List.count_cons, List.count_append, hloop, hp]

/-- C7: (1) in every single-level scan whose open succeeded the directory
handle is closed before the scan returns on every exit path (the open and
close event counts of the scan's trace agree for every path, and `closed`
is emitted last even when the scan's loop panics); (2) the close failure
is reported as the scan's error only when no earlier error is pending: a
pending `Readdir` error wins and the close error is discarded; (3) when
the open fails no handle exists, nothing is closed, and the open error is
reported. -/
theorem c7_handle_close_first_error_wins :
    (∀ (path : List String) (d : FSObj) (ns : List Node) (wf : Bool)
       (p : List String),
      (readDir path d ns wf).1.count (FsEv.openedOk p) =
      (readDir path d ns wf).1.count (FsEv.closed p)) ∧
    (∀ (path : List String) (entries : List (String × FSObj))
       (readErr closeErr : Option String) (ns : List Node) (wf : Bool)
       (res : Option (List Node)) (err : Option String),
      (readDir path (FSObj.dir none entries readErr closeErr) ns wf).2 =
        ROut.ret res err →
      err = (match readErr with | some e => some e | none => closeErr)) ∧
    (∀ (path : List String) (e : String) (entries : List (String × FSObj))
       (readErr closeErr : Option String) (ns : List Node) (wf : Bool),
      readDir path (FSObj.dir (some e) entries readErr closeErr) ns wf =
        ([FsEv.openFailed path], ROut.ret none (some e))) := by
  refine ⟨?_, ?_, ?_⟩
  · intro path d ns wf p
    exact readDir_balanced p (sizeOf d) d le_rfl path ns wf
  · intro path entries readErr closeErr ns wf res err h
    rw [readDir] at h
    cases hl : (readDirLoop path (sortEntries entries) ns wf).2 with
    | none => simp [combineScan, hl] at h
    | some ns2 =>
      simp [combineScan, hl] at h
      exact h.2.symm
  · intro path e entries readErr closeErr ns wf
    rw [readDir]

/-- Witness for C7: a scan with both a `Readdir` error and a close error
reports the read error (close discarded), and its trace is balanced. -/
theorem c7_witness :
    ((readDir [] (FSObj.dir none [] (some "r") (some "c")) [] false).1.count
        (FsEv.openedOk []) =
     (readDir [] (FSObj.dir none [] (some "r") (some "c")) [] false).1.count
        (FsEv.closed [])) ∧
    (some "r" : Option String) =
      (match (some "r" : Option String) with
       | some e => some e
       | none => (some "c" : Option String)) :=
  ⟨c7_handle_close_first_error_wins.1 [] (FSObj.dir none [] (some "r") (some "c"))
      [] false [],
   c7_handle_close_first_error_wins.2.1 [] [] (some "r") (some "c") [] false
      (some []) (some "r")
      (by rw [readDir,
            show sortEntries [] = [] from by simp [sortEntries, List.insertionSort],
            readDirLoop]
          rfl)⟩

/-- The build loop appends nodes whose names form a sublist of the entry
names (in order), and every built node satisfies `allSorted`, assuming the
recursive scans of member entries do. -/
theorem readDirLoop_sorted (entries : List (String × FSObj))
    (H : ∀ e ∈ entries, ∀ (path2 : List String) (wf2 : Bool)
        (evs : List FsEv) (res : List Node) (err : Option String),
      readDir path2 e.2 [] wf2 = (evs, ROut.ret (some res) err) →
      res.Pairwise nameLe ∧ ∀ n ∈ res, allSorted n) :
    ∀ (path : List String) (wf : Bool) (res : List Node),
      (readDirLoop path entries [] wf).2 = some res →
      (res.map Node.name).Sublist (entries.map Prod.fst) ∧
        ∀ n ∈ res, allSorted n := by
  induction entries with
  | nil =>
    intro path wf res h
    rw [readDirLoop] at h
    cases h
    simp
  | cons e rest ih =>
    intro path wf res h
    have Hrest := fun e2 he2 => H e2 (List.mem_cons_of_mem _ he2)
    obtain ⟨name, obj⟩ := e
    cases obj with
    | file size =>
      cases wf with
      | false =>
        rw [show readDirLoop path ((name, FSObj.file size) :: rest) [] false =
              readDirLoop path rest [] false from by simp [readDirLoop]] at h
        obtain ⟨h1, h2⟩ := ih Hrest path false res h
        exact ⟨h1.cons _, h2⟩
      | true =>
        rw [show readDirLoop path ((name, FSObj.file size) :: rest) [] true =
              readDirLoop path rest ([] ++ [Node.fileInfo name size]) true from by
            simp [readDirLoop]] at h
        rw [readDirLoop_nodes] at h
        cases hrest : (readDirLoop path rest [] true).2 with
        | none => rw [hrest] at h; cases h
        | some res2 =>
          rw [hrest] at h
          simp only [Option.map_some] at h
          cases h
          obtain ⟨h1, h2⟩ := ih Hrest path true res2 hrest
          constructor
          · simpa [Node.name] using h1.cons₂ name
          · intro n hn
            rcases List.mem_cons.mp (by simpa using hn) with rfl | hn2
            · rw [allSorted]
              trivial
            · exact h2 n hn2
    | dir o es r c =>
      cases hr : readDir (path ++ [name]) (FSObj.dir o es r c) [] wf with
      | mk evs rout =>
        cases rout with
        | panicked =>
          simp only [readDirLoop, hr] at h
          cases h
        | ret ores oerr =>
          cases ores with
          | none =>
            simp only [readDirLoop, hr] at h
            cases h
          | some children =>
            simp only [readDirLoop, hr, appendEvs] at h
            rw [show ([] : List Node) ++ [Node.dirInfo name children] =
                  [Node.dirInfo name children] from rfl, readDirLoop_nodes] at h
            cases hrest : (readDirLoop path rest [] wf).2 with
            | none => rw [hrest] at h; cases h
            | some res2 =>
              rw [hrest] at h
              simp only [Option.map_some] at h
              cases h
              obtain ⟨h1, h2⟩ := ih Hrest path wf res2 hrest
              have hhead := H (name, FSObj.dir o es r c) (List.mem_cons_self _ _)
                (path ++ [name]) wf evs children oerr hr
              constructor
              · simpa [Node.name] using h1.cons₂ name
              · intro n hn
                rcases List.mem_cons.mp (by simpa using hn) with rfl | hn2
                · rw [allSorted]
                  exact hhead
                · exact h2 n hn2

/-- A successful `readDir` build (from a fresh accumulator, as `dirTree`
and every recursive call invoke it) returns children sorted by name
ascending at every level. -/
theorem readDir_sorted :
    ∀ (N : Nat) (d : FSObj), sizeOf d ≤ N →
    ∀ (path : List String) (wf : Bool) (evs : List FsEv) (res : List Node)
      (err : Option String),
      readDir path d [] wf = (evs, ROut.ret (some res) err) →
      res.Pairwise nameLe ∧ ∀ n ∈ res, allSorted n := by
  intro N
  induction N using Nat.strong_induction_on with
  | _ N ih =>
    intro d hd path wf evs res err h
    cases d with
    | file s => simp [readDir] at h
    | dir o entries r c =>
      cases o with
      | some e => simp [readDir] at h
      | none =>
        rw [readDir] at h
        cases hl : (readDirLoop path (sortEntries entries) [] wf).2 with
        | none => simp [combineScan, hl] at h
        | some ns2 =>
          simp only [combineScan, hl] at h
          have hres : ns2 = res := by
            have := congrArg Prod.snd h
            simp at this
            exact this.1
          subst hres
          have H : ∀ e2 ∈ sortEntries entries,
              ∀ (path2 : List String) (wf2 : Bool) (evs2 : List FsEv)
                (res2 : List Node) (err2 : Option String),
              readDir path2 e2.2 [] wf2 = (evs2, ROut.ret (some res2) err2) →
              res2.Pairwise nameLe ∧ ∀ n ∈ res2, allSorted n := by
            intro e2 he2 path2 wf2 evs2 res2 err2 h2
            have hlt := sizeOf_entry_lt (mem_sortEntries he2) none r c
            exact ih (sizeOf e2.2) (lt_of_lt_of_le hlt hd) e2.2 le_rfl
              path2 wf2 evs2 res2 err2 h2
          obtain ⟨h1, h2⟩ := readDirLoop_sorted (sortEntries entries) H path wf ns2 hl
          refine ⟨?_, h2⟩
          have hsorted : (sortEntries entries).Pairwise entryLe :=
            List.sorted_insertionSort entryLe entries
          have hnames : ((sortEntries entries).map Prod.fst).Pairwise (· ≤ ·) :=
            List.pairwise_map.mpr hsorted
          have hres_names := List.Pairwise.sublist h1 hnames
          have hgoal : ns2.Pairwise (fun a b => Node.name a ≤ Node.name b) :=
            List.pairwise_map.mp hres_names
          exact hgoal

/-- C2: every directory scanned by a successful build lists its children
sorted by name ascending (Lean's string order is codepoint order, which
coincides with Go's bytewise order on UTF-8), with directories and files
interleaved purely by name — the children are ordered as a sublist of the
name-sorted listing, with no type-based regrouping (`allSorted` states
this recursively for every directory node) — and the renderer emits the
siblings' lines in exactly that list order: the head node's full output
precedes the remaining siblings' output. -/
theorem c2_sorted_children_rendered_in_order (path : List String) (d : FSObj)
    (wf : Bool) (evs : List FsEv) (res : List Node) (err : Option String)
    (h : readDir path d [] wf = (evs, ROut.ret (some res) err)) :
    (res.Pairwise nameLe ∧ ∀ n ∈ res, allSorted n) ∧
    (∀ (n : Node) (rest : List Node) (p : List String),
      printDir (n :: rest) p = renderEntry p rest.isEmpty n ++ printDir rest p) :=
  ⟨readDir_sorted (sizeOf d) d le_rfl path wf evs res err h,
   fun n rest p => printDir_cons n rest p⟩

/-- Witness for C2 at a root containing one file, scanned with files
included. -/
theorem c2_witness :
    (List.Pairwise nameLe [Node.fileInfo "a.txt" 1] ∧
      ∀ n ∈ [Node.fileInfo "a.txt" 1], allSorted n) ∧
    printDir [Node.fileInfo "a.txt" 1] [] =
      renderEntry [] (List.isEmpty ([] : List Node)) (Node.fileInfo "a.txt" 1) ++
        printDir ([] : List Node) [] :=
  have h : readDir [] (FSObj.dir none [("a.txt", FSObj.file 1)] none none) [] true =
      ([FsEv.openedOk [], FsEv.closed []],
       ROut.ret (some [Node.fileInfo "a.txt" 1]) none) := by
    rw [readDir,
      show sortEntries [("a.txt", FSObj.file 1)] = [("a.txt", FSObj.file 1)] from by
        simp [sortEntries, List.insertionSort]]
    simp [readDirLoop, combineScan]
  ⟨(c2_sorted_children_rendered_in_order [] _ true _ _ none h).1,
   (c2_sorted_children_rendered_in_order [] _ true _ _ none h).2
     (Node.fileInfo "a.txt" 1) [] []⟩

/-- Strict name order on listing entries. -/
def entryLt (a b : String × FSObj) : Prop := a.1 < b.1

instance : IsAntisymm (String × FSObj) entryLt :=
  ⟨fun _ _ h1 h2 => absurd h2 (lt_asymm h1)⟩

/-- Sorting is a permutation of the listing. -/
theorem sortEntries_perm (entries : List (String × FSObj)) :
    (sortEntries entries).Perm entries :=
  List.perm_insertionSort entryLe entries

/-- Sorting yields a name-nondecreasing listing. -/
theorem sortEntries_sorted (entries : List (String × FSObj)) :
    (sortEntries entries).Pairwise entryLe :=
  List.sorted_insertionSort entryLe entries

/-- A name-nondecreasing listing with pairwise distinct names is strictly
name-increasing. -/
theorem pairwise_lt_of_le_nodup {l : List (String × FSObj)}
    (hle : l.Pairwise entryLe) (hnd : (l.map Prod.fst).Nodup) :
    l.Pairwise entryLt := by
  have hne : l.Pairwise (fun a b => a.1 ≠ b.1) := by
    have : l.Pairwise (fun a b => Prod.fst a ≠ Prod.fst b) :=
      List.pairwise_map.mp hnd
    exact this
  exact (hle.and hne).imp (fun h => lt_of_le_of_ne h.1 h.2)

/-- Two name-sorted listings with distinct names that are permutations of
each other are equal. -/
theorem sorted_perm_nodup_eq {l1 l2 : List (String × FSObj)}
    (hp : l1.Perm l2) (hs1 : l1.Pairwise entryLe) (hs2 : l2.Pairwise entryLe)
    (hnd : (l1.map Prod.fst).Nodup) : l1 = l2 := by
  have hnd2 : (l2.map Prod.fst).Nodup := ((hp.map Prod.fst).nodup_iff).mp hnd
  exact List.eq_of_perm_of_sorted hp
    (pairwise_lt_of_le_nodup hs1 hnd)
    (pairwise_lt_of_le_nodup hs2 hnd2)

/-- Recursive normalization of the entries of a listing. -/
def mapNorm (entries : List (String × FSObj)) : List (String × FSObj) :=
  entries.map (fun x => (x.1, normObj x.2))

/-- Unfolding equation of `normObj` on a directory. -/
theorem normObj_dir (o : Option String) (entries : List (String × FSObj))
    (r c : Option String) :
    normObj (FSObj.dir o entries r c) =
      FSObj.dir o (sortEntries (mapNorm entries)) r c := by
  rw [normObj, mapNorm]
  rw [List.attach_map_coe entries (fun x => (x.1, normObj x.2))]

/-- Unfolding equation of `nodupNames` on a directory. -/
theorem nodupNames_dir (o : Option String) (entries : List (String × FSObj))
    (r c : Option String) :
    nodupNames (FSObj.dir o entries r c) =
      ((entries.map Prod.fst).Nodup ∧ ∀ e ∈ entries, nodupNames e.2) := by
  rw [nodupNames]

/-- Normalization keeps the entry names. -/
theorem mapNorm_names (entries : List (String × FSObj)) :
    (mapNorm entries).map Prod.fst = entries.map Prod.fst := by
  rw [mapNorm, List.map_map]
  rfl

/-- Normalization keeps name-sortedness. -/
theorem mapNorm_pairwise {entries : List (String × FSObj)}
    (h : entries.Pairwise entryLe) : (mapNorm entries).Pairwise entryLe := by
  rw [mapNorm]
  exact List.pairwise_map.mpr h

/-- Double-sorting the normalized listing equals normalizing the sorted
listing (names distinct): both are name-sorted rearrangements of the same
entries. -/
theorem sort_mapNorm_comm {es : List (String × FSObj)}
    (hnd : (es.map Prod.fst).Nodup) :
    sortEntries (sortEntries (mapNorm es)) = mapNorm (sortEntries es) := by
  have hperm : (sortEntries (sortEntries (mapNorm es))).Perm (mapNorm (sortEntries es)) :=
    ((sortEntries_perm _).trans (sortEntries_perm _)).trans
      (((sortEntries_perm es).map _).symm)
  apply sorted_perm_nodup_eq hperm (sortEntries_sorted _)
    (mapNorm_pairwise (sortEntries_sorted es))
  have hnames : ((sortEntries (sortEntries (mapNorm es))).map Prod.fst).Perm
      (es.map Prod.fst) := by
    have := ((sortEntries_perm (sortEntries (mapNorm es))).trans
      (sortEntries_perm (mapNorm es))).map Prod.fst
    rw [mapNorm_names] at this
    exact this
  exact (hnames.nodup_iff).mpr hnd

/-- The build loop cannot observe normalization of its entries' objects,
assuming the recursive scans cannot. -/
theorem readDirLoop_norm (entries : List (String × FSObj))
    (H : ∀ e ∈ entries, ∀ (path2 : List String) (ns2 : List Node) (wf2 : Bool),
      readDir path2 (normObj e.2) ns2 wf2 = readDir path2 e.2 ns2 wf2) :
    ∀ (path : List String) (ns : List Node) (wf : Bool),
      readDirLoop path (mapNorm entries) ns wf = readDirLoop path entries ns wf := by
  induction entries with
  | nil => intro path ns wf; rfl
  | cons e rest ih =>
    intro path ns wf
    have Hrest := fun e2 he2 => H e2 (List.mem_cons_of_mem _ he2)
    obtain ⟨name, obj⟩ := e
    have hcons : mapNorm ((name, obj) :: rest) =
        (name, normObj obj) :: mapNorm rest := rfl
    cases obj with
    | file size =>
      rw [hcons, show normObj (FSObj.file size) = FSObj.file size from by
        rw [normObj]]
      cases wf with
      | false =>
        rw [show ∀ es2, readDirLoop path ((name, FSObj.file size) :: es2) ns false =
              readDirLoop path es2 ns false from fun es2 => by simp [readDirLoop]]
        rw [show ∀ es2, readDirLoop path ((name, FSObj.file size) :: es2) ns false =
              readDirLoop path es2 ns false from fun es2 => by simp [readDirLoop]]
        exact ih Hrest path ns false
      | true =>
        rw [show ∀ es2, readDirLoop path ((name, FSObj.file size) :: es2) ns true =
              readDirLoop path es2 (ns ++ [Node.fileInfo name size]) true from
            fun es2 => by simp [readDirLoop]]
        rw [show ∀ es2, readDirLoop path ((name, FSObj.file size) :: es2) ns true =
              readDirLoop path es2 (ns ++ [Node.fileInfo name size]) true from
            fun es2 => by simp [readDirLoop]]
        exact ih Hrest path _ true
    | dir o2 es2 r2 c2 =>
      rw [hcons, normObj_dir]
      have hchild := H (name, FSObj.dir o2 es2 r2 c2) (List.mem_cons_self _ _)
        (path ++ [name]) [] wf
      rw [normObj_dir] at hchild
      cases hr : readDir (path ++ [name]) (FSObj.dir o2 es2 r2 c2) [] wf with
      | mk evs rout =>
        rw [hr] at hchild
        cases rout with
        | panicked => simp only [readDirLoop, hchild, hr]
        | ret ores oerr =>
          cases ores with
          | none => simp only [readDirLoop, hchild, hr]
          | some children =>
            simp only [readDirLoop, hchild, hr, appendEvs]
            rw [ih Hrest path _ wf]

/-- A build cannot observe the order in which the filesystem returned any
listing: scanning the normalized observation is identical to scanning the
original, provided names are unique within each listing. -/
theorem readDir_norm :
    ∀ (N : Nat) (d : FSObj), sizeOf d ≤ N → nodupNames d →
    ∀ (path : List String) (ns : List Node) (wf : Bool),
      readDir path (normObj d) ns wf = readDir path d ns wf := by
  intro N
  induction N using Nat.strong_induction_on with
  | _ N ih =>
    intro d hd hnodup path ns wf
    cases d with
    | file s => rw [show normObj (FSObj.file s) = FSObj.file s from by rw [normObj]]
    | dir o entries r c =>
      cases o with
      | some e => rw [normObj_dir, readDir, readDir]
      | none =>
        rw [nodupNames_dir] at hnodup
        obtain ⟨hnd, hsub⟩ := hnodup
        have H : ∀ e2 ∈ sortEntries entries,
            ∀ (path2 : List String) (ns2 : List Node) (wf2 : Bool),
            readDir path2 (normObj e2.2) ns2 wf2 = readDir path2 e2.2 ns2 wf2 := by
          intro e2 he2 path2 ns2 wf2
          have hmem := mem_sortEntries he2
          have hlt := sizeOf_entry_lt hmem none r c
          exact ih (sizeOf e2.2) (lt_of_lt_of_le hlt hd) e2.2 le_rfl
            (hsub e2 hmem) path2 ns2 wf2
        rw [normObj_dir, readDir, readDir, sort_mapNorm_comm hnd,
          readDirLoop_norm (sortEntries entries) H]

/-- C8: the output of build-then-render is a function of the filesystem
content alone: on two observations of the same unchanged tree (same root,
same flag, same listings up to the order `Readdir` returned them, same
sizes and errors — i.e. equal after normalization), `dirTree` produces
identical results, in particular byte-identical output strings across
repeated runs. -/
theorem c8_output_order_independent (d1 d2 : FSObj) (wf : Bool)
    (h1 : nodupNames d1) (h2 : nodupNames d2) (heq : objEquiv d1 d2) :
    dirTree d1 wf = dirTree d2 wf := by
  have key : readDir [] d1 [] wf = readDir [] d2 [] wf := by
    rw [← readDir_norm (sizeOf d1) d1 le_rfl h1 [] [] wf,
      ← readDir_norm (sizeOf d2) d2 le_rfl h2 [] [] wf]
    rw [objEquiv] at heq
    rw [heq]
  rw [dirTree, dirTree, key]

/-- Listings that are permutations of each other (names distinct) are
observations of the same filesystem in the sense of `objEquiv`. -/
theorem objEquiv_of_listing_perm (o : Option String)
    {es es2 : List (String × FSObj)} (r c : Option String)
    (hp : es.Perm es2) (hnd : (es.map Prod.fst).Nodup) :
    objEquiv (FSObj.dir o es r c) (FSObj.dir o es2 r c) := by
  rw [objEquiv, normObj_dir, normObj_dir]
  have hsorteq : sortEntries (mapNorm es) = sortEntries (mapNorm es2) := by
    have hperm : (sortEntries (mapNorm es)).Perm (sortEntries (mapNorm es2)) :=
      ((sortEntries_perm _).trans (hp.map _)).trans (sortEntries_perm _).symm
    apply sorted_perm_nodup_eq hperm (sortEntries_sorted _) (sortEntries_sorted _)
    have hnames : ((sortEntries (mapNorm es)).map Prod.fst).Perm (es.map Prod.fst) := by
      have := (sortEntries_perm (mapNorm es)).map Prod.fst
      rw [mapNorm_names] at this
      exact this
    exact (hnames.nodup_iff).mpr hnd
  rw [hsorteq]

/-- Witness for C8: two observations of the same two-entry root returned
in opposite orders render identically. -/
theorem c8_witness :
    dirTree (FSObj.dir none [("a", FSObj.file 1), ("b", FSObj.file 2)] none none)
      false =
    dirTree (FSObj.dir none [("b", FSObj.file 2), ("a", FSObj.file 1)] none none)
      false :=
  c8_output_order_independent _ _ false
    (by rw [nodupNames_dir]
        constructor
        · decide
        · intro e he
          rcases List.mem_cons.mp he with rfl | he2
          · rw [nodupNames]; trivial
          · rcases List.mem_cons.mp he2 with rfl | he3
            · rw [nodupNames]; trivial
            · cases he3)
    (by rw [nodupNames_dir]
        constructor
        · decide
        · intro e he
          rcases List.mem_cons.mp he with rfl | he2
          · rw [nodupNames]; trivial
          · rcases List.mem_cons.mp he2 with rfl | he3
            · rw [nodupNames]; trivial
            · cases he3)
    (objEquiv_of_listing_perm none none none
      (List.Perm.swap ("b", FSObj.file 2) ("a", FSObj.file 1) [])
      (by decide))
